import Mathlib

/-!
Verification of the spider-man-villain-viz core: a shallow embedding of the
name-extraction heuristic (`parseAntagonistsFromHtml` in the scraper,
`src/scraper/marvelScraper.ts`) and the aggregation pipeline
(`processVillainData`, `generateStats`, `serializeProcessedData` in
`src/utils/dataProcessor.ts`), together with theorems settling the
specification claims.

JavaScript strings are modelled as Lean `String` (lists of characters);
JavaScript numbers are modelled as `Int` for issue keys, `Nat` for counters
and `ℚ` for the averaged statistics.  The regular expressions appearing in
the source are translated into explicit character-list functions.  All
definitions are structurally recursive so that concrete runs evaluate inside
the kernel.
-/

namespace VillainViz

/-- The character class matched by `\s` in a JavaScript regular expression,
which is also the set stripped by `String.prototype.trim`: ASCII whitespace,
NBSP, the Unicode space separators, line/paragraph separators and the BOM. -/
def isJsWhitespace (c : Char) : Bool :=
  c = ' ' || c = '\t' || c = '\n' || c = '\x0b' || c = '\x0c' || c = '\r' ||
  c.toNat = 0xA0 || c.toNat = 0x1680 ||
  (0x2000 ≤ c.toNat && c.toNat ≤ 0x200A) ||
  c.toNat = 0x2028 || c.toNat = 0x2029 || c.toNat = 0x202F ||
  c.toNat = 0x205F || c.toNat = 0x3000 || c.toNat = 0xFEFF

/-- JavaScript `String.prototype.trim`: drop leading and trailing
whitespace. -/
def jsTrim (s : String) : String :=
  ⟨((s.data.dropWhile isJsWhitespace).reverse.dropWhile isJsWhitespace).reverse⟩

/-- Helper for the parenthesis-deleting regexp of `normalizeVillainName`:
drop characters up to and including the first `)`; `none` when no `)`
remains (in which case the regexp has no match starting at the `(`). -/
def dropThroughClose : List Char → Option (List Char)
  | [] => none
  | c :: rest => if c = ')' then some rest else dropThroughClose rest

/-- JavaScript `replace(/\([^)]*\)/g, '')` from `normalizeVillainName`:
delete every span running from a `(` through the first `)` after it.  The
fuel argument (instantiated with the list length, which bounds the number of
steps) keeps the recursion structural. -/
def removeParensAux : Nat → List Char → List Char
  | 0, l => l
  | _ + 1, [] => []
  | fuel + 1, c :: rest =>
    if c = '(' then
      match dropThroughClose rest with
      | some rest' => removeParensAux fuel rest'
      | none => c :: removeParensAux fuel rest
    else
      c :: removeParensAux fuel rest

/-- The parenthesis-deletion pass of `normalizeVillainName`. -/
def removeParens (l : List Char) : List Char :=
  removeParensAux l.length l

/-- JavaScript `replace(/[,;:\.]+$/, '')` from `normalizeVillainName`:
strip the maximal trailing run of characters from `{,;:.}`. -/
def stripTrailingPunct (l : List Char) : List Char :=
  (l.reverse.dropWhile (fun c => c = ',' || c = ';' || c = ':' || c = '.')).reverse

/-- Replace every maximal run of characters satisfying `p` by the single
character `repl`; this is JavaScript `replace(/X+/g, repl)` for a character
class `X`. -/
def collapseRuns (p : Char → Bool) (repl : Char) : List Char → List Char
  | [] => []
  | [c] => if p c then [repl] else [c]
  | c :: c' :: rest =>
    if p c && p c' then collapseRuns p repl (c' :: rest)
    else (if p c then repl else c) :: collapseRuns p repl (c' :: rest)

/-- `normalizeVillainName` from `src/utils/dataProcessor.ts`: trim, delete
parenthesised spans, trim, strip trailing punctuation, trim, collapse
whitespace runs to single spaces. -/
def normalizeVillainName (name : String) : String :=
  let s1 := jsTrim name
  let s2 := jsTrim ⟨removeParens s1.data⟩
  let s3 := jsTrim ⟨stripTrailingPunct s2.data⟩
  ⟨collapseRuns isJsWhitespace ' ' s3.data⟩

/-- Characters kept verbatim by `generateVillainId`: the class `[a-z0-9]`. -/
def isSlugChar (c : Char) : Bool :=
  ('a' ≤ c && c ≤ 'z') || ('0' ≤ c && c ≤ '9')

/-- Removal of a single leading `-`, one half of JavaScript
`replace(/^-|-$/g, '')`. -/
def dropLeadDash : List Char → List Char
  | '-' :: rest => rest
  | l => l

/-- `generateVillainId` from `src/utils/dataProcessor.ts`: lowercase,
replace every maximal run of non-`[a-z0-9]` characters by `-`, then strip a
leading and a trailing `-`. -/
def generateVillainId (name : String) : String :=
  let lowered := name.data.map Char.toLower
  let dashed := collapseRuns (fun c => !isSlugChar c) '-' lowered
  ⟨(dropLeadDash (dropLeadDash dashed).reverse).reverse⟩

/-! ## Extractor: per-list-item name selection of `parseAntagonistsFromHtml`

The claims about the Extractor concern the logic applied to one `<li>`
element (lines 196–243 of the scraper): choose a name from the item's links,
fall back to the item's text content, filter navigation glyphs.  A list item
is modelled by the texts of its links in document order together with its own
text content. -/

/-- The seven glyphs of the navigation-symbol regexp
`/^[\s⏴◀▶→←↑↓]+$/` in `parseAntagonistsFromHtml` (both occurrences use
exactly this set). -/
def isArrowChar (c : Char) : Bool :=
  c = '⏴' || c = '◀' || c = '▶' || c = '→' || c = '←' || c = '↑' || c = '↓'

/-- JavaScript `text.match(/^[\s⏴◀▶→←↑↓]+$/) !== null`: the string is
non-empty and every character is whitespace or one of the seven arrow
glyphs. -/
def arrowOnly (s : String) : Bool :=
  !s.isEmpty && s.data.all (fun c => isJsWhitespace c || isArrowChar c)

/-- JavaScript `text.match(/^See/i) !== null`: the first three characters
are `see` up to case. -/
def startsWithSee (s : String) : Bool :=
  match s.data with
  | c1 :: c2 :: c3 :: _ =>
    (c1 = 's' || c1 = 'S') && (c2 = 'e' || c2 = 'E') && (c3 = 'e' || c3 = 'E')
  | _ => false

/-- The filter of the multi-link loop in `parseAntagonistsFromHtml`
(lines 219–222): a link is taken when its trimmed text is non-empty, longer
than one character, not navigation-symbol-only and not a `See…` helper
link. -/
def linkQualifies (linkText : String) : Bool :=
  let t := jsTrim linkText
  !t.isEmpty && t.length > 1 && !arrowOnly t && !startsWithSee t

/-- The link-selection phase of `parseAntagonistsFromHtml` (lines 206–227):
a single link's trimmed text is used as-is; with several links, the first
qualifying one is used; otherwise the empty string stands for JavaScript's
falsy `''`. -/
def extractNameFromLinks : List String → String
  | [l] => jsTrim l
  | links@(_ :: _ :: _) =>
    match links.find? linkQualifies with
    | some l => jsTrim l
    | none => ""
  | [] => ""

/-- One `<li>` of an antagonist list, abstracted to the data the extraction
logic reads: the text of each `<a>` descendant in document order, and the
item's own text content. -/
structure ListItem where
  links : List String
  textContent : String
deriving DecidableEq

/-- JavaScript `text.split('\n')[0]`: the text up to the first line
break. -/
def firstLine (s : String) : String :=
  ⟨s.data.takeWhile (fun c => c ≠ '\n')⟩

/-- The fallback phase of `parseAntagonistsFromHtml` (lines 229–237): when
the link phase produced the empty string, take the item's text content up to
its first line break, trimmed, if it is non-empty, longer than one character
and not navigation-symbol-only. -/
def fallbackName (li : ListItem) : String :=
  let text := jsTrim (firstLine li.textContent)
  if !text.isEmpty && text.length > 1 && !arrowOnly text then text else ""

/-- The complete per-list-item logic of `parseAntagonistsFromHtml`
(lines 196–243): link selection, fallback to the item text, and the final
validity check `name && name.length > 1`; `none` means the item contributes
no antagonist. -/
def extractNameFromListItem (li : ListItem) : Option String :=
  let name := extractNameFromLinks li.links
  let name := if name = "" then fallbackName li else name
  if name ≠ "" ∧ name.length > 1 then some name else none

/-- The Extractor restricted to one antagonist list: each list item
contributes its extracted name, in document order. -/
def parseAntagonistItems (items : List ListItem) : List String :=
  items.filterMap extractNameFromListItem

/-! ## Aggregator: data model of `src/utils/dataProcessor.ts`

The pipeline is generic in the type `K` of issue keys: the well-typed
TypeScript interface has `issueNumber : number`, modelled by `K = Int`;
a malformed record whose issue key is absent at runtime is modelled by
`K = WithTop Int` with `⊤` standing for `undefined` (compared with
same-value-zero equality, sorted to the end, exactly as JavaScript treats
`undefined` in `includes` and `sort`). -/

variable {K : Type} [LinearOrder K]

/-- One scraped issue record (`IssueData`): issue key, page title and the
raw antagonist names returned by the Extractor. -/
structure IssueData (K : Type) where
  issueNumber : K
  title : String
  antagonists : List String
deriving DecidableEq

/-- One deduplicated villain (`ProcessedVillain`): slug id, name list whose
head is the canonical name, first appearance, appearance list and cached
frequency. -/
structure ProcessedVillain (K : Type) where
  id : String
  names : List String
  firstAppearance : K
  appearances : List K
  frequency : Nat
deriving DecidableEq

/-- One timeline slot (`TimelineData`): issue key, villains present and
their count. -/
structure TimelineData (K : Type) where
  issue : K
  villains : List (ProcessedVillain K)
  villainCount : Nat
deriving DecidableEq

/-- The statistics object (`VillainStats`); `firstAppearances` is the
insertion-ordered map from issue key to the canonical names first appearing
there (`names[0]` is modelled by `names.head?`). -/
structure VillainStats (K : Type) where
  totalVillains : Nat
  mostFrequent : ProcessedVillain K
  averageFrequency : ℚ
  firstAppearances : List (K × List (Option String))
deriving DecidableEq

/-- The full processed dataset (`ProcessedData`). -/
structure ProcessedData (K : Type) where
  series : String
  processedAt : String
  villains : List (ProcessedVillain K)
  timeline : List (TimelineData K)
  stats : VillainStats K
deriving DecidableEq

/-- Association-list lookup modelling `Map.prototype.get`/`has` (first
entry with the given key; keys are unique by construction). -/
def alistLookup {α β : Type} [DecidableEq α] (key : α) : List (α × β) → Option β
  | [] => none
  | p :: rest => if p.1 = key then some p.2 else alistLookup key rest

/-- In-place update of the entry at `key`, modelling mutation of the object
stored in a `Map` (insertion order is preserved). -/
def alistUpdate {α β : Type} [DecidableEq α] (key : α) (f : β → β)
    (l : List (α × β)) : List (α × β) :=
  l.map fun p => if p.1 = key then (p.1, f p.2) else p

/-- The body of the inner loop of `processVillainData` (lines 75–103): skip
blank raw names, normalize, skip names normalizing to the empty string,
insert a fresh villain or record one more appearance unless the issue key is
already present. -/
def addVillain [DecidableEq K] (k : K) (villainMap : List (String × ProcessedVillain K))
    (rawName : String) : List (String × ProcessedVillain K) :=
  if jsTrim rawName = "" then villainMap
  else
    let normalized := normalizeVillainName rawName
    if normalized = "" then villainMap
    else
      match alistLookup normalized villainMap with
      | none =>
        villainMap ++ [(normalized,
          { id := generateVillainId normalized
            names := [normalized]
            firstAppearance := k
            appearances := [k]
            frequency := 1 })]
      | some v =>
        if k ∈ v.appearances then villainMap
        else
          alistUpdate normalized
            (fun v => { v with appearances := v.appearances ++ [k],
                               frequency := v.frequency + 1 })
            villainMap

/-- The villain-index double loop of `processVillainData` (lines 72–104). -/
def buildVillainMap [DecidableEq K] (issues : List (IssueData K)) :
    List (String × ProcessedVillain K) :=
  issues.foldl
    (fun m issue => issue.antagonists.foldl (addVillain issue.issueNumber) m) []

/-- `generateTimeline` (lines 136–156): one slot per issue, listing in map
order the villains whose appearances include that issue's key. -/
def generateTimeline [DecidableEq K] (issues : List (IssueData K))
    (villains : List (ProcessedVillain K)) : List (TimelineData K) :=
  issues.map fun issue =>
    let villainsInIssue := villains.filter (fun v => issue.issueNumber ∈ v.appearances)
    { issue := issue.issueNumber
      villains := villainsInIssue
      villainCount := villainsInIssue.length }

/-- The reduction computing `mostFrequent` (lines 172–175):
`reduce((prev, current) => current.frequency > prev.frequency ? current : prev)`
keeps the earliest entry with maximal frequency. -/
def reduceMostFrequent (vs : List (ProcessedVillain K)) (acc : ProcessedVillain K) :
    ProcessedVillain K :=
  vs.foldl (fun prev current =>
    if current.frequency > prev.frequency then current else prev) acc

/-- `generateStats` (lines 165–199); `zeroK` is the issue-key reading of the
JavaScript `0` in the sentinel `mostFrequent`; the `originalIssues`
parameter is accepted, and never read, exactly as in the source. -/
def generateStats [DecidableEq K] (zeroK : K) (villainArray : List (ProcessedVillain K))
    (originalIssues : List (IssueData K)) : VillainStats K :=
  let mostFrequent : ProcessedVillain K :=
    match villainArray with
    | [] => { id := "", names := [], firstAppearance := zeroK,
              appearances := [], frequency := 0 }
    | v :: vs => reduceMostFrequent vs v
  let averageFrequency : ℚ :=
    match villainArray with
    | [] => 0
    | _ => villainArray.foldl (fun sum v => sum + (v.frequency : ℚ)) 0 /
             (villainArray.length : ℚ)
  let firstAppearances :=
    villainArray.foldl
      (fun m v =>
        let m := if (alistLookup v.firstAppearance m).isSome then m
                 else m ++ [(v.firstAppearance, ([] : List (Option String)))]
        alistUpdate v.firstAppearance (fun l => l ++ [v.names.head?]) m)
      []
  { totalVillains := villainArray.length
    mostFrequent := mostFrequent
    averageFrequency := averageFrequency
    firstAppearances := firstAppearances }

/-- The body of `processVillainData` after input validation (lines 71–126):
build the villain index, sort each appearance list ascending, then derive
the timeline and statistics.  The `now` parameter makes the single impure
read `new Date().toISOString()` explicit. -/
def processIssues [DecidableEq K] (zeroK : K) (now series : String)
    (issues : List (IssueData K)) : ProcessedData K :=
  let sortedMap := (buildVillainMap issues).map
    (fun p => (p.1, { p.2 with appearances := p.2.appearances.insertionSort (· ≤ ·) }))
  let villains := sortedMap.map (·.2)
  { series := series
    processedAt := now
    villains := villains
    timeline := generateTimeline issues villains
    stats := generateStats zeroK villains issues }

/-- The run-time shape of the `rawData` argument of `processVillainData`:
nullish, an object whose `issues` field is not an array, or an object
carrying an actual list of records. -/
inductive RawInput (K : Type) where
  | nullish
  | invalidIssues (series : String)
  | valid (series : String) (issues : List (IssueData K))
deriving DecidableEq

/-- `processVillainData` (lines 63–127): the validation
`if (!rawData || !Array.isArray(rawData.issues)) throw` followed by the
processing body. -/
def processVillainData [DecidableEq K] (zeroK : K) (now : String) :
    RawInput K → Except String (ProcessedData K)
  | .nullish => .error "Invalid raw data format"
  | .invalidIssues _ => .error "Invalid raw data format"
  | .valid series issues => .ok (processIssues zeroK now series issues)

/-! ## Serialization: `serializeProcessedData` -/

/-- JavaScript `Math.round`: round half toward positive infinity. -/
def jsRound (q : ℚ) : ℤ := ⌊q + 1 / 2⌋

/-- The `stats` sub-object emitted by `serializeProcessedData`;
`mostFrequent` is `names[0]` of the most frequent villain, hence `none`
(JSON `undefined`, dropped on stringification) when its name list is
empty. -/
structure SerializedStats where
  totalVillains : Nat
  mostFrequent : Option String
  mostFrequentCount : Nat
  averageFrequency : ℚ
deriving DecidableEq

/-- One villain entry emitted by `serializeProcessedData`. -/
structure SerializedVillain (K : Type) where
  id : String
  name : Option String
  aliases : List String
  firstAppearance : K
  appearances : List K
  frequency : Nat
deriving DecidableEq

/-- One timeline entry emitted by `serializeProcessedData`. -/
structure SerializedTimeline (K : Type) where
  issue : K
  villainCount : Nat
  villains : List (Option String)
deriving DecidableEq

/-- The JSON-serializable object produced by `serializeProcessedData`. -/
structure SerializedData (K : Type) where
  series : String
  processedAt : String
  stats : SerializedStats
  villains : List (SerializedVillain K)
  timeline : List (SerializedTimeline K)
deriving DecidableEq

/-- `serializeProcessedData` (lines 207–235): project the processed data
onto the JSON compatibility shape, rounding the average frequency to two
decimals; every JavaScript `names[0]` read is `names.head?`. -/
def serializeProcessedData (data : ProcessedData K) : SerializedData K :=
  { series := data.series
    processedAt := data.processedAt
    stats :=
      { totalVillains := data.stats.totalVillains
        mostFrequent := data.stats.mostFrequent.names.head?
        mostFrequentCount := data.stats.mostFrequent.frequency
        averageFrequency := (jsRound (data.stats.averageFrequency * 100) : ℚ) / 100 }
    villains := data.villains.map fun v =>
      { id := v.id
        name := v.names.head?
        aliases := v.names.drop 1
        firstAppearance := v.firstAppearance
        appearances := v.appearances
        frequency := v.frequency }
    timeline := data.timeline.map fun t =>
      { issue := t.issue
        villainCount := t.villainCount
        villains := t.villains.map (fun v => v.names.head?) } }

/-- The registry invariant maintained by the villain-index loop: keys are
pairwise distinct, every entry's cached frequency equals the length of its
appearance list and no appearance list holds a key twice. -/
def RegistryInvariant (m : List (String × ProcessedVillain K)) : Prop :=
  (m.map Prod.fst).Nodup ∧
    ∀ p ∈ m, p.2.frequency = p.2.appearances.length ∧ p.2.appearances.Nodup

/-- The registry records issue key `k` for normalized name `nm`: some entry
is found at `nm` whose appearance list contains `k`. -/
def hasAppearance [DecidableEq K] (k : K) (nm : String)
    (m : List (String × ProcessedVillain K)) : Prop :=
  ∃ v, alistLookup nm m = some v ∧ k ∈ v.appearances

/-! ## The specification's navigation-arrow class

Used only to compare the specification's wording against the code's
hard-coded glyph set. -/

/-- Modelled from the spec: the claimed navigation-arrow class of
"arrow/triangle pointer glyphs of any style (left/right/up/down pointers)".
It extends the seven glyphs hard-coded in `parseAntagonistsFromHtml` with
further single-direction pointer styles, among them the right-pointing
medium triangle `⏵` (the mirror image of the hard-coded `⏴`). -/
def isSpecArrowChar (c : Char) : Bool :=
  isArrowChar c || c = '⏵' || c = '⏶' || c = '⏷' || c = '◄' || c = '►' ||
  c = '▲' || c = '▼' || c = '▸' || c = '◂' || c = '▴' || c = '▾'

/-- Modelled from the spec: a navigation-arrow-only link text, "composed
entirely of whitespace or arrow/triangle pointer glyphs of any style". -/
def specArrowOnly (s : String) : Bool :=
  !s.isEmpty && s.data.all (fun c => isJsWhitespace c || isSpecArrowChar c)

end VillainViz

/-! # Claims -/

namespace VillainViz

variable {K : Type} [LinearOrder K]

/-- C1 counterexample: a list item whose first link is arrow-only in the
spec's any-style sense (two right-pointing `⏵` glyphs, a style absent from
the code's glyph set), whose second link is the real name `Chameleon` and
whose third link is arrow-only.  The Extractor returns the arrow text, not
the real name, because `⏵⏵` is two characters long and survives the
hard-coded glyph filter. -/
theorem C1_counterexample :
    specArrowOnly "⏵⏵" = true ∧ specArrowOnly "⏴" = true ∧
    linkQualifies "Chameleon" = true ∧
    extractNameFromListItem ⟨["⏵⏵", "Chameleon", "⏴"], "⏵⏵Chameleon⏴"⟩ = some "⏵⏵" ∧
    "⏵⏵" ≠ "Chameleon" := by decide

/-- C1 (amended): for a list item of three links whose first link's trimmed
text is at most one character long or matches the code's navigation-symbol
class `[\s⏴◀▶→←↑↓]+`, and whose second link qualifies as a real name, the
Extractor returns the second link's trimmed text, which is not
navigation-symbol-only. -/
theorem C1_arrow_filtering (a1 n a2 txt : String)
    (h1 : (jsTrim a1).length ≤ 1 ∨ arrowOnly (jsTrim a1) = true)
    (h2 : linkQualifies n = true) :
    extractNameFromListItem ⟨[a1, n, a2], txt⟩ = some (jsTrim n) ∧
      arrowOnly (jsTrim n) = false := by
  have hq := h2
  simp only [linkQualifies, Bool.and_eq_true, Bool.not_eq_true',
    decide_eq_true_eq] at hq
  obtain ⟨⟨⟨-, hlen⟩, harrow⟩, -⟩ := hq
  have ha1 : linkQualifies a1 = false := by
    rcases h1 with h | h
    · have : ¬ (jsTrim a1).length > 1 := by omega
      simp [linkQualifies, this]
    · simp [linkQualifies, h]
  have hne : jsTrim n ≠ "" := by
    intro hc
    rw [hc] at hlen
    simp [String.length] at hlen
  have hfind : extractNameFromLinks [a1, n, a2] = jsTrim n := by
    simp [extractNameFromLinks, List.find?, ha1, h2]
  refine ⟨?_, harrow⟩
  simp [extractNameFromListItem, hfind, hne, hlen]

/-- C1 witness: the specification's Scenario B, `⏴ Chameleon ⏵`. -/
theorem C1_arrow_filtering_witness :
    ((jsTrim "⏴").length ≤ 1 ∨ arrowOnly (jsTrim "⏴") = true) ∧
    linkQualifies "Chameleon" = true ∧
    (extractNameFromListItem ⟨["⏴", "Chameleon", "⏵"], "⏴Chameleon⏵"⟩ =
        some (jsTrim "Chameleon") ∧
      arrowOnly (jsTrim "Chameleon") = false) :=
  ⟨by decide, by decide,
    C1_arrow_filtering "⏴" "Chameleon" "⏵" "⏴Chameleon⏵" (by decide) (by decide)⟩

/-- C4 counterexample: the item `<li><a>x</a> Doctor Octopus</li>` has a
single link whose text `x` yields no qualifying name (one character), and
its text content `x Doctor Octopus` passes the fallback filter; the claim
then demands the fallback text, but the code returns nothing: the truthy
one-character link name blocks the fallback and is itself discarded by the
final length check. -/
theorem C4_counterexample :
    linkQualifies "x" = false ∧
    fallbackName ⟨["x"], "x Doctor Octopus"⟩ = "x Doctor Octopus" ∧
    extractNameFromListItem ⟨["x"], "x Doctor Octopus"⟩ = none := by decide

/-- C4 (amended): whenever the link-selection phase yields the empty string
— the item has no links, its single link trims to the empty string, or none
of its several links qualifies — the Extractor falls back to the item's text
content up to the first line break, trimmed, and accepts it exactly when it
is longer than one character and not navigation-symbol-only. -/
theorem C4_fallback (li : ListItem) (h : extractNameFromLinks li.links = "") :
    extractNameFromListItem li =
      if (jsTrim (firstLine li.textContent)).length > 1 ∧
          arrowOnly (jsTrim (firstLine li.textContent)) = false
      then some (jsTrim (firstLine li.textContent))
      else none := by
  by_cases hc : (jsTrim (firstLine li.textContent)).length > 1 ∧
      arrowOnly (jsTrim (firstLine li.textContent)) = false
  · obtain ⟨hlen, harrow⟩ := hc
    have hne : jsTrim (firstLine li.textContent) ≠ "" := by
      intro hceq
      rw [hceq] at hlen
      simp [String.length] at hlen
    have hie : (jsTrim (firstLine li.textContent)).isEmpty = false := by
      rcases Bool.eq_false_or_eq_true ((jsTrim (firstLine li.textContent)).isEmpty)
        with ht | hf
      · exact absurd ((String.isEmpty_iff _).mp ht) hne
      · exact hf
    have hfb : fallbackName li = jsTrim (firstLine li.textContent) := by
      simp [fallbackName, hie, hlen, harrow]
    simp [extractNameFromListItem, h, hfb, hne, hlen, harrow]
  · have hfb : fallbackName li = "" := by
      simp only [fallbackName]
      rcases Decidable.em ((jsTrim (firstLine li.textContent)).length > 1) with hl | hl
      · have harrow : arrowOnly (jsTrim (firstLine li.textContent)) = true := by
          rcases Bool.eq_false_or_eq_true (arrowOnly (jsTrim (firstLine li.textContent)))
            with ht | hf
          · exact ht
          · exact absurd ⟨hl, hf⟩ hc
        simp [harrow]
      · simp [hl]
    simp [extractNameFromListItem, h, hfb, hc]

/-- C4 witness: a list item with no links and text content
`Doctor Octopus\nFootnote` falls back to `Doctor Octopus`. -/
theorem C4_fallback_witness :
    extractNameFromLinks ([] : List String) = "" ∧
    extractNameFromListItem ⟨[], "Doctor Octopus\nFootnote"⟩ =
      (if (jsTrim (firstLine "Doctor Octopus\nFootnote")).length > 1 ∧
          arrowOnly (jsTrim (firstLine "Doctor Octopus\nFootnote")) = false
       then some (jsTrim (firstLine "Doctor Octopus\nFootnote"))
       else none) :=
  ⟨by decide, C4_fallback ⟨[], "Doctor Octopus\nFootnote"⟩ (by decide)⟩

/-- C7: `normalizeVillainName` is the ordered composition trim, parenthesis
deletion, trim, trailing-punctuation strip, trim, whitespace collapse; on
the raw name `Green Goblin (Norman Osborn)` at issue key 1 it produces the
canonical villain `Green Goblin` with slug `green-goblin`, frequency 1 and
first appearance 1. -/
theorem C7_normalize_scenario :
    (∀ s : String, normalizeVillainName s =
      ⟨collapseRuns isJsWhitespace ' '
        (jsTrim ⟨stripTrailingPunct
          (jsTrim ⟨removeParens (jsTrim s).data⟩).data⟩).data⟩) ∧
    normalizeVillainName "Green Goblin (Norman Osborn)" = "Green Goblin" ∧
    generateVillainId "Green Goblin" = "green-goblin" ∧
    (processIssues (0 : Int) "" "Amazing Spider-Man Vol 1"
        [⟨1, "Amazing Spider-Man #1", ["Green Goblin (Norman Osborn)"]⟩]).villains =
      [{ id := "green-goblin", names := ["Green Goblin"], firstAppearance := 1,
         appearances := [1], frequency := 1 }] :=
  ⟨fun _ => rfl, by decide, by decide, by decide⟩

/-- C9: `processVillainData` is deterministic — the timestamp parameter is
its only impurity, and two runs on the same input agree exactly once the
`processedAt` field is excluded. -/
theorem C9_deterministic (zeroK : Int) (now₁ now₂ : String) (input : RawInput Int) :
    (processVillainData zeroK now₁ input).map (fun d => { d with processedAt := "" }) =
    (processVillainData zeroK now₂ input).map (fun d => { d with processedAt := "" }) := by
  cases input <;> rfl

/-- The statistics of a processed dataset are computed from its villain
list: `processIssues` feeds the same let-bound list to both fields. -/
theorem stats_eq_generateStats [DecidableEq K] (zeroK : K) (now series : String)
    (issues : List (IssueData K)) :
    (processIssues zeroK now series issues).stats =
      generateStats zeroK (processIssues zeroK now series issues).villains issues :=
  rfl

/-- Summing frequencies by left fold equals the sum of the mapped list. -/
theorem foldl_frequency_sum (l : List (ProcessedVillain K)) (a : ℚ) :
    l.foldl (fun sum v => sum + (v.frequency : ℚ)) a =
      a + ((l.map (fun v => (v.frequency : ℚ))).sum) := by
  induction l generalizing a with
  | nil => simp
  | cons v vs ih => simp [ih, add_assoc]

/-- C8: `averageFrequency` is `0` on an empty registry — the division is
guarded — and otherwise is the arithmetic mean of the villain
frequencies. -/
theorem C8_average_frequency (zeroK : Int) (now series : String)
    (issues : List (IssueData Int)) :
    ((processIssues zeroK now series issues).villains = [] →
      (processIssues zeroK now series issues).stats.averageFrequency = 0) ∧
    ((processIssues zeroK now series issues).villains ≠ [] →
      (processIssues zeroK now series issues).stats.averageFrequency =
        ((processIssues zeroK now series issues).villains.map
            (fun v => (v.frequency : ℚ))).sum /
          ((processIssues zeroK now series issues).villains.length : ℚ)) := by
  rw [stats_eq_generateStats]
  cases hv : (processIssues zeroK now series issues).villains with
  | nil => exact ⟨fun _ => rfl, fun hne => absurd rfl hne⟩
  | cons v vs =>
    refine ⟨fun hc => by simp at hc, fun _ => ?_⟩
    show (v :: vs).foldl (fun sum v => sum + (v.frequency : ℚ)) 0 /
        ((v :: vs).length : ℚ) = _
    rw [foldl_frequency_sum, zero_add]

/-- C8 witness: two issues with raw names `A, B` and `A` give average
frequency `3/2` through the mean formula. -/
theorem C8_average_frequency_witness :
    (processIssues (0 : Int) "" "s" [⟨1, "a", ["A", "B"]⟩, ⟨2, "b", ["A"]⟩]).villains ≠ [] ∧
    (processIssues (0 : Int) "" "s" [⟨1, "a", ["A", "B"]⟩, ⟨2, "b", ["A"]⟩]).stats.averageFrequency =
      ((processIssues (0 : Int) "" "s" [⟨1, "a", ["A", "B"]⟩, ⟨2, "b", ["A"]⟩]).villains.map
          (fun v => (v.frequency : ℚ))).sum /
        ((processIssues (0 : Int) "" "s" [⟨1, "a", ["A", "B"]⟩, ⟨2, "b", ["A"]⟩]).villains.length : ℚ) :=
  ⟨by decide,
    (C8_average_frequency 0 "" "s" [⟨1, "a", ["A", "B"]⟩, ⟨2, "b", ["A"]⟩]).2 (by decide)⟩

/-- C10: when no record yields a valid normalized name, the statistics hold
the sentinel most-frequent entry (empty name list, frequency 0, zero
villains) and the serialized object drops the most-frequent name (`none`,
i.e. JSON `undefined`) while remaining well-formed. -/
theorem C10_empty_registry (zeroK : Int) (now series : String)
    (issues : List (IssueData Int))
    (h : (processIssues zeroK now series issues).villains = []) :
    (processIssues zeroK now series issues).stats.totalVillains = 0 ∧
    (processIssues zeroK now series issues).stats.mostFrequent.names = [] ∧
    (processIssues zeroK now series issues).stats.mostFrequent.frequency = 0 ∧
    (serializeProcessedData (processIssues zeroK now series issues)).stats.mostFrequent =
      none ∧
    (serializeProcessedData (processIssues zeroK now series issues)).stats.mostFrequentCount =
      0 ∧
    (serializeProcessedData (processIssues zeroK now series issues)).stats.totalVillains = 0 ∧
    (serializeProcessedData (processIssues zeroK now series issues)).villains = [] := by
  have hs : (processIssues zeroK now series issues).stats =
      generateStats zeroK [] issues := by
    rw [stats_eq_generateStats, h]
  refine ⟨?_, ?_, ?_, ?_, ?_, ?_, ?_⟩ <;>
    simp [serializeProcessedData, hs, h, generateStats]

/-- C10 witness: an issue whose raw names are blank or parenthesis-only
yields an empty registry, a sentinel most-frequent entry and a serialized
`mostFrequent` of `none`. -/
theorem C10_empty_registry_witness :
    (processIssues (0 : Int) "" "s" [⟨1, "t", ["   ", "(Norman Osborn)"]⟩]).villains = [] ∧
    ((processIssues (0 : Int) "" "s" [⟨1, "t", ["   ", "(Norman Osborn)"]⟩]).stats.totalVillains = 0 ∧
     (processIssues (0 : Int) "" "s" [⟨1, "t", ["   ", "(Norman Osborn)"]⟩]).stats.mostFrequent.names = [] ∧
     (processIssues (0 : Int) "" "s" [⟨1, "t", ["   ", "(Norman Osborn)"]⟩]).stats.mostFrequent.frequency = 0 ∧
     (serializeProcessedData (processIssues (0 : Int) "" "s" [⟨1, "t", ["   ", "(Norman Osborn)"]⟩])).stats.mostFrequent = none ∧
     (serializeProcessedData (processIssues (0 : Int) "" "s" [⟨1, "t", ["   ", "(Norman Osborn)"]⟩])).stats.mostFrequentCount = 0 ∧
     (serializeProcessedData (processIssues (0 : Int) "" "s" [⟨1, "t", ["   ", "(Norman Osborn)"]⟩])).stats.totalVillains = 0 ∧
     (serializeProcessedData (processIssues (0 : Int) "" "s" [⟨1, "t", ["   ", "(Norman Osborn)"]⟩])).villains = []) :=
  ⟨by decide, C10_empty_registry 0 "" "s" [⟨1, "t", ["   ", "(Norman Osborn)"]⟩] (by decide)⟩

/-- C3 counterexample: `processVillainData` does not validate per-record
issue keys.  A record whose issue key is absent at runtime (`⊤ : WithTop
Int` models the JavaScript `undefined`) is processed without any error, and
the undefined key flows into the villain's first appearance — where the
claim demands an InvalidInput failure. -/
theorem C3_counterexample :
    ∃ d, processVillainData (0 : WithTop Int) ""
        (.valid "s" [⟨⊤, "t", ["Vulture"]⟩]) = Except.ok d ∧
      d.villains.map (·.firstAppearance) = [⊤] :=
  ⟨processIssues (0 : WithTop Int) "" "s" [⟨⊤, "t", ["Vulture"]⟩], rfl, by rfl⟩

/-- C3 (amended): `processVillainData` fails with the InvalidInput error
exactly when its argument is nullish or its `issues` field is not an array;
no per-record issue-key check is made.  Empty antagonist lists never fail:
such a record leaves the villain registry unchanged, and every record —
including empty ones — gets its own timeline slot. -/
theorem C3_validation (zeroK : WithTop Int) (now : String) :
    (∀ input : RawInput (WithTop Int),
      (∃ e, processVillainData zeroK now input = .error e) ↔
        input = .nullish ∨ ∃ s, input = .invalidIssues s) ∧
    (∀ (series t : String) (k : WithTop Int)
        (pre suf : List (IssueData (WithTop Int))),
      (processIssues zeroK now series (pre ++ ⟨k, t, []⟩ :: suf)).villains =
        (processIssues zeroK now series (pre ++ suf)).villains) ∧
    (∀ (series : String) (issues : List (IssueData (WithTop Int))),
      (processIssues zeroK now series issues).timeline.length = issues.length) := by
  refine ⟨?_, ?_, ?_⟩
  · intro input
    cases input with
    | nullish => exact ⟨fun _ => Or.inl rfl, fun _ => ⟨"Invalid raw data format", rfl⟩⟩
    | invalidIssues s =>
      exact ⟨fun _ => Or.inr ⟨s, rfl⟩, fun _ => ⟨"Invalid raw data format", rfl⟩⟩
    | valid s issues =>
      constructor
      · rintro ⟨e, he⟩
        exact absurd he (by simp [processVillainData])
      · rintro (h | ⟨s', h⟩) <;> exact absurd h (by simp)
  · intro series t k pre suf
    have hmap : buildVillainMap (pre ++ ⟨k, t, []⟩ :: suf) =
        buildVillainMap (pre ++ suf) := by
      simp [buildVillainMap, List.foldl_append]
    simp [processIssues, hmap]
  · intro series issues
    simp [processIssues, generateTimeline]

/-! ## Association-list and registry lemmas -/

/-- A left fold preserves any invariant its step function preserves. -/
theorem foldl_preserve {α β : Type} (P : β → Prop) (f : β → α → β)
    (hf : ∀ b a, P b → P (f b a)) : ∀ (l : List α) (b : β), P b → P (l.foldl f b)
  | [], _, hb => hb
  | a :: l, b, hb => foldl_preserve P f hf l (f b a) (hf b a hb)

/-- Lookup ignores an appended tail when the key is already present. -/
theorem alistLookup_append_left {α β : Type} [DecidableEq α] {key : α}
    {l : List (α × β)} {v : β} (l' : List (α × β)) (h : alistLookup key l = some v) :
    alistLookup key (l ++ l') = some v := by
  induction l with
  | nil => exact Option.noConfusion h
  | cons p rest ih =>
    by_cases hp : p.1 = key
    · simpa [alistLookup, hp] using h
    · simp only [alistLookup, hp, if_false, List.cons_append] at h ⊢
      exact ih h

/-- Lookup passes over a prefix that lacks the key. -/
theorem alistLookup_append_none {α β : Type} [DecidableEq α] {key : α}
    {l : List (α × β)} (l' : List (α × β)) (h : alistLookup key l = none) :
    alistLookup key (l ++ l') = alistLookup key l' := by
  induction l with
  | nil => rfl
  | cons p rest ih =>
    by_cases hp : p.1 = key
    · simp [alistLookup, hp] at h
    · simp only [alistLookup, hp, if_false] at h
      simpa only [List.cons_append, alistLookup, hp, if_false] using ih h

/-- Lookup after an in-place update: the updated key's value is mapped, any
other key is untouched. -/
theorem alistLookup_update {α β : Type} [DecidableEq α] (key nm : α) (f : β → β)
    (l : List (α × β)) :
    alistLookup nm (alistUpdate key f l) =
      if nm = key then (alistLookup nm l).map f else alistLookup nm l := by
  induction l with
  | nil => simp [alistLookup, alistUpdate]
  | cons p rest ih =>
    by_cases hn : nm = key
    · subst hn
      by_cases hk : p.1 = nm <;>
        simp [alistUpdate, alistLookup, hk, ih] at ih ⊢ <;> simp [ih]
    · by_cases hk : p.1 = key
      · have hpn : ¬ p.1 = nm := by
          rw [hk]
          exact fun hc => hn hc.symm
        simp only [alistUpdate, List.map_cons, if_pos hk, alistLookup, hpn,
          if_false, if_neg hn]
        simpa [alistUpdate, if_neg hn] using ih
      · by_cases hpn : p.1 = nm
        · simp [alistUpdate, alistLookup, hk, hpn, hn]
        · simp only [alistUpdate, List.map_cons, if_neg hk, alistLookup, hpn,
            if_false, if_neg hn]
          simpa [alistUpdate, if_neg hn] using ih

/-- In-place update preserves the key sequence. -/
theorem alistUpdate_keys {α β : Type} [DecidableEq α] (key : α) (f : β → β)
    (l : List (α × β)) :
    (alistUpdate key f l).map Prod.fst = l.map Prod.fst := by
  induction l with
  | nil => rfl
  | cons p rest ih =>
    show ((if p.1 = key then (p.1, f p.2) else p) :: alistUpdate key f rest).map Prod.fst =
      p.1 :: rest.map Prod.fst
    rw [List.map_cons, ih]
    by_cases hp : p.1 = key
    · rw [if_pos hp]
    · rw [if_neg hp]

/-- A key is absent from the lookup exactly when it is not among the
keys. -/
theorem alistLookup_eq_none {α β : Type} [DecidableEq α] (key : α)
    (l : List (α × β)) :
    alistLookup key l = none ↔ key ∉ l.map Prod.fst := by
  induction l with
  | nil => simp [alistLookup]
  | cons p rest ih =>
    by_cases hp : p.1 = key <;> simp_all [alistLookup, hp, eq_comm]

/-- With pairwise-distinct keys, every entry is what lookup finds for its
key. -/
theorem alistLookup_of_mem_nodup {α β : Type} [DecidableEq α]
    {l : List (α × β)} {p : α × β} (hmem : p ∈ l)
    (hnd : (l.map Prod.fst).Nodup) : alistLookup p.1 l = some p.2 := by
  induction l with
  | nil => simp at hmem
  | cons q rest ih =>
    rw [List.map_cons, List.nodup_cons] at hnd
    rcases List.mem_cons.mp hmem with heq | hmem'
    · subst heq
      simp [alistLookup]
    · have hq : q.1 ≠ p.1 := by
        intro hc
        exact hnd.1 (hc ▸ List.mem_map_of_mem Prod.fst hmem')
      simp only [alistLookup, hq, if_false]
      exact ih hmem' hnd.2

/-- One step of the inner loop preserves the registry invariant. -/
theorem registryInvariant_addVillain [DecidableEq K] (k : K)
    (m : List (String × ProcessedVillain K)) (r : String)
    (hm : RegistryInvariant m) : RegistryInvariant (addVillain k m r) := by
  obtain ⟨hkeys, hent⟩ := hm
  by_cases h1 : jsTrim r = ""
  · simpa [addVillain, h1] using ⟨hkeys, hent⟩
  · by_cases h2 : normalizeVillainName r = ""
    · simpa [addVillain, h1, h2] using ⟨hkeys, hent⟩
    · cases hl : alistLookup (normalizeVillainName r) m with
      | none =>
        refine ⟨?_, ?_⟩
        · simp only [addVillain, h1, h2, hl, if_neg, if_false]
          simp only [List.map_append, List.map_cons, List.map_nil]
          rw [List.nodup_append]
          refine ⟨hkeys, List.nodup_singleton _, ?_⟩
          intro a ha hb
          simp only [List.mem_singleton] at hb
          subst hb
          exact (alistLookup_eq_none _ _).mp hl ha
        · intro p hp
          simp only [addVillain, h1, h2, hl, if_neg, if_false, List.mem_append,
            List.mem_singleton] at hp
          rcases hp with hp | hp
          · exact hent p hp
          · subst hp
            exact ⟨rfl, List.nodup_singleton _⟩
      | some v =>
        by_cases h3 : k ∈ v.appearances
        · simpa [addVillain, h1, h2, hl, h3] using ⟨hkeys, hent⟩
        · constructor
          · simp only [addVillain, h1, h2, hl, h3, if_false]
            rw [alistUpdate_keys]
            exact hkeys
          · intro p hp
            simp only [addVillain, h1, h2, hl, h3, if_false, alistUpdate,
              List.mem_map] at hp
            obtain ⟨q, hq, hpq⟩ := hp
            by_cases hqk : q.1 = normalizeVillainName r
            · rw [if_pos hqk] at hpq
              have hq2 : q.2 = v := by
                have := alistLookup_of_mem_nodup hq hkeys
                rw [hqk, hl] at this
                exact (Option.some.inj this).symm
              obtain ⟨hf, hn⟩ := hent q hq
              subst hpq
              refine ⟨?_, ?_⟩
              · simp [hf]
              · simp only [List.nodup_append, List.nodup_singleton]
                refine ⟨hn, trivial, ?_⟩
                intro a ha hb
                simp only [List.mem_singleton] at hb
                subst hb
                rw [hq2] at ha
                exact h3 ha
            · rw [if_neg hqk] at hpq
              subst hpq
              exact hent q hq

/-- The registry invariant holds of the full villain index. -/
theorem registryInvariant_buildVillainMap [DecidableEq K]
    (issues : List (IssueData K)) : RegistryInvariant (buildVillainMap issues) := by
  refine foldl_preserve RegistryInvariant _ (fun m issue hm => ?_) issues []
    ⟨List.nodup_nil, by simp⟩
  exact foldl_preserve RegistryInvariant _
    (fun m' r hm' => registryInvariant_addVillain issue.issueNumber m' r hm')
    issue.antagonists m hm

/-- The villain list of a processed dataset is the villain index with each
appearance list sorted. -/
theorem villains_processIssues [DecidableEq K] (zeroK : K) (now series : String)
    (issues : List (IssueData K)) :
    (processIssues zeroK now series issues).villains =
      (buildVillainMap issues).map
        (fun p => { p.2 with appearances := p.2.appearances.insertionSort (· ≤ ·) }) := by
  simp only [processIssues, List.map_map]
  rfl

/-- A list sorted weakly with pairwise-distinct entries is sorted
strictly. -/
theorem sorted_lt_of_sorted_le {l : List Int} (hs : l.Sorted (· ≤ ·))
    (hn : l.Nodup) : l.Sorted (· < ·) :=
  (hs.and hn).imp fun h => lt_of_le_of_ne h.1 h.2

/-- C5: for every input — ordered by issue key or not — each output
villain's cached frequency equals the number of its appearances, and its
appearance list is strictly ascending (hence duplicate-free). -/
theorem C5_frequency_invariant (zeroK : Int) (now series : String)
    (issues : List (IssueData Int)) (v : ProcessedVillain Int)
    (hv : v ∈ (processIssues zeroK now series issues).villains) :
    v.frequency = v.appearances.length ∧ v.appearances.Nodup ∧
      v.appearances.Sorted (· < ·) := by
  rw [villains_processIssues] at hv
  obtain ⟨p, hp, hpv⟩ := List.mem_map.mp hv
  obtain ⟨hf, hn⟩ := (registryInvariant_buildVillainMap issues).2 p hp
  have hperm : (p.2.appearances.insertionSort (· ≤ ·)).Perm p.2.appearances :=
    List.perm_insertionSort _ _
  have hnd : (p.2.appearances.insertionSort (· ≤ ·)).Nodup := hperm.nodup_iff.mpr hn
  have hsorted : (p.2.appearances.insertionSort (· ≤ ·)).Sorted (· ≤ ·) :=
    List.sorted_insertionSort _ _
  subst hpv
  exact ⟨by simpa [hf] using hperm.length_eq.symm, hnd,
    sorted_lt_of_sorted_le hsorted hnd⟩

/-- C5 witness: an input not ordered by issue key (issue 5 before issue 2,
the latter mentioning the villain twice) still yields frequency 2 with the
strictly ascending appearance list `[2, 5]`. -/
theorem C5_frequency_invariant_witness :
    ({ id := "doc-ock", names := ["Doc Ock"], firstAppearance := 5,
       appearances := [2, 5], frequency := 2 } : ProcessedVillain Int) ∈
      (processIssues (0 : Int) "" "s"
        [⟨5, "a", ["Doc Ock"]⟩, ⟨2, "b", ["Doc Ock", "Doc Ock"]⟩]).villains ∧
    (({ id := "doc-ock", names := ["Doc Ock"], firstAppearance := 5,
        appearances := [2, 5], frequency := 2 } : ProcessedVillain Int).frequency =
      [2, 5].length ∧ ([2, 5] : List Int).Nodup ∧
      ([2, 5] : List Int).Sorted (· < ·)) :=
  ⟨by decide,
    C5_frequency_invariant 0 "" "s"
      [⟨5, "a", ["Doc Ock"]⟩, ⟨2, "b", ["Doc Ock", "Doc Ock"]⟩]
      { id := "doc-ock", names := ["Doc Ock"], firstAppearance := 5,
        appearances := [2, 5], frequency := 2 } (by decide)⟩

/-- The reduction keeping the first strict maximum: either the accumulator
already dominates the list, or the result is the first list element whose
frequency strictly exceeds the accumulator's and every later maximum. -/
theorem reduceMostFrequent_spec (l : List (ProcessedVillain K))
    (acc : ProcessedVillain K) :
    (reduceMostFrequent l acc = acc ∧ ∀ x ∈ l, x.frequency ≤ acc.frequency) ∨
    (∃ pre suf, l = pre ++ reduceMostFrequent l acc :: suf ∧
      acc.frequency < (reduceMostFrequent l acc).frequency ∧
      (∀ x ∈ pre, x.frequency < (reduceMostFrequent l acc).frequency) ∧
      (∀ x ∈ suf, x.frequency ≤ (reduceMostFrequent l acc).frequency)) := by
  induction l generalizing acc with
  | nil => exact Or.inl ⟨rfl, by simp⟩
  | cons c cs ih =>
    by_cases hc : c.frequency > acc.frequency
    · have hstep : reduceMostFrequent (c :: cs) acc = reduceMostFrequent cs c := by
        simp [reduceMostFrequent, hc]
      rw [hstep]
      rcases ih c with ⟨heq, hall⟩ | ⟨pre, suf, hdec, hgt, hpre, hsuf⟩
      · refine Or.inr ⟨[], cs, ?_, ?_, by simp, ?_⟩
        · rw [heq, List.nil_append]
        · rw [heq]; exact hc
        · rw [heq]; exact hall
      · refine Or.inr ⟨c :: pre, suf, ?_, ?_, ?_, hsuf⟩
        · rw [List.cons_append, ← hdec]
        · exact lt_trans hc hgt
        · intro x hx
          rcases List.mem_cons.mp hx with hx | hx
          · subst hx; exact hgt
          · exact hpre x hx
    · have hle : c.frequency ≤ acc.frequency := le_of_not_lt hc
      have hstep : reduceMostFrequent (c :: cs) acc = reduceMostFrequent cs acc := by
        simp [reduceMostFrequent, hc]
      rw [hstep]
      rcases ih acc with ⟨heq, hall⟩ | ⟨pre, suf, hdec, hgt, hpre, hsuf⟩
      · refine Or.inl ⟨heq, ?_⟩
        intro x hx
        rcases List.mem_cons.mp hx with hx | hx
        · subst hx; exact hle
        · exact hall x hx
      · refine Or.inr ⟨c :: pre, suf, ?_, hgt, ?_, hsuf⟩
        · rw [List.cons_append, ← hdec]
        · intro x hx
          rcases List.mem_cons.mp hx with hx | hx
          · subst hx; exact lt_of_le_of_lt hle hgt
          · exact hpre x hx

/-- C2 counterexample: with records out of issue order — issue 5 naming `A`,
then issue 3 naming `B` — both villains have frequency 1, `B` has the
earlier first appearance 3, yet `mostFrequent` is `A`: the tie is broken by
first-seen insertion order alone, not by earliest first appearance. -/
theorem C2_counterexample :
    (processIssues (0 : Int) "" "s"
        [⟨5, "a", ["A"]⟩, ⟨3, "b", ["B"]⟩]).stats.mostFrequent.names = ["A"] ∧
    (processIssues (0 : Int) "" "s"
        [⟨5, "a", ["A"]⟩, ⟨3, "b", ["B"]⟩]).stats.mostFrequent.firstAppearance = 5 ∧
    (processIssues (0 : Int) "" "s"
        [⟨5, "a", ["A"]⟩, ⟨3, "b", ["B"]⟩]).stats.mostFrequent.frequency = 1 ∧
    (∃ v ∈ (processIssues (0 : Int) "" "s"
        [⟨5, "a", ["A"]⟩, ⟨3, "b", ["B"]⟩]).villains,
      v.frequency = 1 ∧ v.firstAppearance = 3) := by decide

/-- C2 (amended): on every input with a non-empty registry, `mostFrequent`
is the first registry entry, in first-seen insertion order, of maximal
frequency: every entry before it has strictly smaller frequency and no
entry anywhere has larger frequency.  (Earliest first appearance plays no
role; it coincides with insertion order only when records arrive in
ascending issue-key order.) -/
theorem C2_most_frequent (zeroK : Int) (now series : String)
    (issues : List (IssueData Int))
    (h : (processIssues zeroK now series issues).villains ≠ []) :
    ∃ pre suf,
      (processIssues zeroK now series issues).villains =
        pre ++ (processIssues zeroK now series issues).stats.mostFrequent :: suf ∧
      (∀ v ∈ pre, v.frequency <
        (processIssues zeroK now series issues).stats.mostFrequent.frequency) ∧
      ∀ v ∈ (processIssues zeroK now series issues).villains,
        v.frequency ≤
          (processIssues zeroK now series issues).stats.mostFrequent.frequency := by
  cases hv : (processIssues zeroK now series issues).villains with
  | nil => exact absurd hv h
  | cons v vs =>
    have hmf : (processIssues zeroK now series issues).stats.mostFrequent =
        reduceMostFrequent vs v := by
      rw [stats_eq_generateStats, hv]
      rfl
    rw [hmf]
    rcases reduceMostFrequent_spec vs v with ⟨heq, hall⟩ | ⟨pre, suf, hdec, hgt, hpre, hsuf⟩
    · refine ⟨[], vs, by rw [heq, List.nil_append], by simp, ?_⟩
      intro x hx
      rcases List.mem_cons.mp hx with hx | hx
      · subst hx; rw [heq]
      · rw [heq]; exact hall x hx
    · refine ⟨v :: pre, suf, by rw [List.cons_append, ← hdec], ?_, ?_⟩
      · intro x hx
        rcases List.mem_cons.mp hx with hx | hx
        · subst hx; exact hgt
        · exact hpre x hx
      · intro x hx
        rcases List.mem_cons.mp hx with hx | hx
        · subst hx; exact le_of_lt hgt
        · rw [hdec] at hx
          rcases List.mem_append.mp hx with hx | hx
          · exact le_of_lt (hpre x hx)
          · rcases List.mem_cons.mp hx with hx | hx
            · subst hx; exact le_refl _
            · exact hsuf x hx

/-- C2 witness: two tied villains inserted at issues 1 and 2; the first
insertion wins. -/
theorem C2_most_frequent_witness :
    (processIssues (0 : Int) "" "s" [⟨1, "a", ["A"]⟩, ⟨2, "b", ["B"]⟩]).villains ≠ [] ∧
    ∃ pre suf,
      (processIssues (0 : Int) "" "s" [⟨1, "a", ["A"]⟩, ⟨2, "b", ["B"]⟩]).villains =
        pre ++ (processIssues (0 : Int) "" "s"
          [⟨1, "a", ["A"]⟩, ⟨2, "b", ["B"]⟩]).stats.mostFrequent :: suf ∧
      (∀ v ∈ pre, v.frequency <
        (processIssues (0 : Int) "" "s"
          [⟨1, "a", ["A"]⟩, ⟨2, "b", ["B"]⟩]).stats.mostFrequent.frequency) ∧
      ∀ v ∈ (processIssues (0 : Int) "" "s" [⟨1, "a", ["A"]⟩, ⟨2, "b", ["B"]⟩]).villains,
        v.frequency ≤
          (processIssues (0 : Int) "" "s"
            [⟨1, "a", ["A"]⟩, ⟨2, "b", ["B"]⟩]).stats.mostFrequent.frequency :=
  ⟨by decide, C2_most_frequent 0 "" "s" [⟨1, "a", ["A"]⟩, ⟨2, "b", ["B"]⟩] (by decide)⟩

/-- A recorded appearance survives any further `addVillain` step. -/
theorem hasAppearance_addVillain [DecidableEq K] (k k' : K) (nm : String)
    (m : List (String × ProcessedVillain K)) (r : String)
    (h : hasAppearance k nm m) : hasAppearance k nm (addVillain k' m r) := by
  obtain ⟨v, hl, hk⟩ := h
  by_cases h1 : jsTrim r = ""
  · exact ⟨v, by simpa [addVillain, h1] using hl, hk⟩
  · by_cases h2 : normalizeVillainName r = ""
    · exact ⟨v, by simpa [addVillain, h1, h2] using hl, hk⟩
    · cases hl2 : alistLookup (normalizeVillainName r) m with
      | none =>
        refine ⟨v, ?_, hk⟩
        simp only [addVillain, h1, h2, hl2, if_neg, if_false]
        exact alistLookup_append_left _ hl
      | some w =>
        by_cases h3 : k' ∈ w.appearances
        · exact ⟨v, by simpa [addVillain, h1, h2, hl2, h3] using hl, hk⟩
        · by_cases h4 : nm = normalizeVillainName r
          · refine ⟨{ v with
                appearances := v.appearances ++ [k'],
                frequency := v.frequency + 1 }, ?_, by simp [hk]⟩
            simp only [addVillain, h1, h2, hl2, h3, if_false]
            rw [alistLookup_update, if_pos h4, hl]
            rfl
          · refine ⟨v, ?_, hk⟩
            simp only [addVillain, h1, h2, hl2, h3, if_false]
            rw [alistLookup_update, if_neg h4, hl]

/-- Processing a raw name with non-blank text and non-empty normalization
records its appearance at the current issue key. -/
theorem hasAppearance_addVillain_self [DecidableEq K] (k : K)
    (m : List (String × ProcessedVillain K)) (r : String)
    (h1 : jsTrim r ≠ "") (h2 : normalizeVillainName r ≠ "") :
    hasAppearance k (normalizeVillainName r) (addVillain k m r) := by
  cases hl : alistLookup (normalizeVillainName r) m with
  | none =>
    refine ⟨{ id := generateVillainId (normalizeVillainName r)
              names := [normalizeVillainName r]
              firstAppearance := k
              appearances := [k]
              frequency := 1 }, ?_, by simp⟩
    simp only [addVillain, h1, h2, hl, if_neg, if_false]
    rw [alistLookup_append_none _ hl]
    simp [alistLookup]
  | some v =>
    by_cases h3 : k ∈ v.appearances
    · exact ⟨v, by simpa [addVillain, h1, h2, hl, h3] using hl, h3⟩
    · refine ⟨{ v with
          appearances := v.appearances ++ [k],
          frequency := v.frequency + 1 }, ?_, by simp⟩
      simp only [addVillain, h1, h2, hl, h3, if_false]
      rw [alistLookup_update, if_pos rfl, hl]
      rfl

/-- A raw name whose appearance at the current key is already recorded is a
no-op: the repeat-mention guard of `processVillainData`. -/
theorem addVillain_noop [DecidableEq K] (k : K)
    (m : List (String × ProcessedVillain K)) (n : String)
    (h : hasAppearance k (normalizeVillainName n) m) : addVillain k m n = m := by
  by_cases h1 : jsTrim n = ""
  · simp [addVillain, h1]
  · obtain ⟨v, hl, hk⟩ := h
    by_cases h2 : normalizeVillainName n = ""
    · simp [addVillain, h1, h2]
    · simp [addVillain, h1, h2, hl, hk]

/-- After folding a name list that contains a valid occurrence normalizing
to `nm`, the registry records `nm` at the current issue key. -/
theorem foldl_addVillain_hasApp [DecidableEq K] (k : K) (ns : List String)
    (m₀ : List (String × ProcessedVillain K)) (x : String) (hx : x ∈ ns)
    (hxt : jsTrim x ≠ "") (hxn : normalizeVillainName x ≠ "") :
    hasAppearance k (normalizeVillainName x) (ns.foldl (addVillain k) m₀) := by
  induction ns generalizing m₀ with
  | nil => simp at hx
  | cons a rest ih =>
    rcases List.mem_cons.mp hx with heq | hmem
    · subst heq
      rw [List.foldl_cons]
      exact foldl_preserve (hasAppearance k (normalizeVillainName x)) _
        (fun m r hm => hasAppearance_addVillain k k _ m r hm) rest _
        (hasAppearance_addVillain_self k m₀ x hxt hxn)
    · rw [List.foldl_cons]
      exact ih (addVillain k m₀ a) hmem

/-- Within one record, a raw name normalizing like an earlier valid raw name
of the same record adds nothing to the fold. -/
theorem foldl_addVillain_dup [DecidableEq K] (k : K) (ns ms : List String)
    (n : String) (m₀ : List (String × ProcessedVillain K)) (x : String)
    (hx : x ∈ ns) (hxt : jsTrim x ≠ "")
    (hxn : normalizeVillainName x = normalizeVillainName n)
    (hnz : normalizeVillainName n ≠ "") :
    (ns ++ n :: ms).foldl (addVillain k) m₀ = (ns ++ ms).foldl (addVillain k) m₀ := by
  rw [List.foldl_append, List.foldl_append, List.foldl_cons]
  have hxz : normalizeVillainName x ≠ "" := by
    rw [hxn]
    exact hnz
  have happ : hasAppearance k (normalizeVillainName n) (ns.foldl (addVillain k) m₀) := by
    rw [← hxn]
    exact foldl_addVillain_hasApp k ns m₀ x hx hxt hxz
  rw [addVillain_noop k _ n happ]

/-- `generateTimeline` reads only the issue keys of its records: replacing
one record by another with the same key leaves the timeline unchanged. -/
theorem generateTimeline_congr [DecidableEq K] (vs : List (ProcessedVillain K))
    (pre suf : List (IssueData K)) (a b : IssueData K)
    (h : a.issueNumber = b.issueNumber) :
    generateTimeline (pre ++ a :: suf) vs = generateTimeline (pre ++ b :: suf) vs := by
  simp [generateTimeline, h]

/-- C6: a raw name that normalizes like an earlier valid raw name of the
same record can be deleted without changing the output at all — repeat
mentions of one villain within one record add no appearance and no
frequency. -/
theorem C6_no_double_count (zeroK : Int) (now series t : String) (k : Int)
    (pre suf : List (IssueData Int)) (ns ms : List String) (n x : String)
    (hx : x ∈ ns) (hxt : jsTrim x ≠ "")
    (hxn : normalizeVillainName x = normalizeVillainName n)
    (hnz : normalizeVillainName n ≠ "") :
    processIssues zeroK now series (pre ++ ⟨k, t, ns ++ n :: ms⟩ :: suf) =
      processIssues zeroK now series (pre ++ ⟨k, t, ns ++ ms⟩ :: suf) := by
  have hmap : buildVillainMap (pre ++ (⟨k, t, ns ++ n :: ms⟩ : IssueData Int) :: suf) =
      buildVillainMap (pre ++ (⟨k, t, ns ++ ms⟩ : IssueData Int) :: suf) := by
    unfold buildVillainMap
    rw [List.foldl_append, List.foldl_append, List.foldl_cons, List.foldl_cons]
    congr 1
    show List.foldl (addVillain k)
        (List.foldl
          (fun m issue => List.foldl (addVillain issue.issueNumber) m issue.antagonists)
          [] pre) (ns ++ n :: ms) =
      List.foldl (addVillain k)
        (List.foldl
          (fun m issue => List.foldl (addVillain issue.issueNumber) m issue.antagonists)
          [] pre) (ns ++ ms)
    exact foldl_addVillain_dup k ns ms n _ x hx hxt hxn hnz
  simp only [processIssues, hmap]
  rw [generateTimeline_congr _ pre suf (⟨k, t, ns ++ n :: ms⟩ : IssueData Int)
    (⟨k, t, ns ++ ms⟩ : IssueData Int) rfl]
  rfl

/-- C6 witness: `Chameleon` mentioned twice in one record — once with a
parenthesized alias — yields exactly the output of the single mention. -/
theorem C6_no_double_count_witness :
    ("Chameleon" ∈ ["Chameleon"] ∧ jsTrim "Chameleon" ≠ "" ∧
      normalizeVillainName "Chameleon" =
        normalizeVillainName "Chameleon (Dmitri Smerdyakov)" ∧
      normalizeVillainName "Chameleon (Dmitri Smerdyakov)" ≠ "") ∧
    processIssues (0 : Int) "" "s"
        [⟨1, "t", ["Chameleon", "Chameleon (Dmitri Smerdyakov)"]⟩] =
      processIssues (0 : Int) "" "s" [⟨1, "t", ["Chameleon"]⟩] :=
  ⟨⟨by decide, by decide, by decide, by decide⟩,
    C6_no_double_count 0 "" "s" "t" 1 [] [] ["Chameleon"] []
      "Chameleon (Dmitri Smerdyakov)" "Chameleon" (by decide) (by decide)
      (by decide) (by decide)⟩

end VillainViz
